import Mathlib

/-!
Verification of the gpool connection pool (package `pool`, files
`pool.go` and `conn.go`).

The pool is embedded shallowly and sequentially:

* Go channels become explicit data: the buffered channel `conns`
  (capacity `MaxCap`) becomes an optional FIFO list (`none` models the
  nil channel of a closed pool), and the token channel `remainingSpace`
  (capacity `MaxCap`) becomes its occupancy count, a `Nat`.
* A channel send that would block (buffer full / nil channel) and a
  channel receive that would block (buffer empty) are modelled by the
  `blocked` outcome, which leaves the state unchanged.
* Go `int` fields (`idleConns`, `createNum`, the capacities in
  `Config`) become `Int`.
* `net.Conn` values are identifiers (`Nat`); a Go `net.Conn` variable
  that may be nil becomes `Option Conn`.  Calling a method such as
  `RemoteAddr()` on a nil connection is a nil-pointer dereference,
  modelled by the `panicked` outcome.  The logrus log statements are
  otherwise elided, but the evaluation of their `conn.RemoteAddr()`
  arguments is kept, because it can panic.
* The factory `func(network, address string) (net.Conn, error)` returns
  a pair (connection, error); the cases that occur are: success with a
  connection, failure with a nil connection (the Go convention, e.g.
  `net.Dial`), and the pathological failure that still carries a
  non-nil connection.
* Operations additionally report the list of connections whose
  underlying `Close()` was invoked during the call, so that theorems
  can speak about connections being destroyed.
-/


namespace GPool

/-- Connections are identified by a numeric id. -/
abbrev Conn := Nat

/-- Result of one factory call: `(net.Conn, error)` with the Go
convention that a failure normally carries a nil connection. -/
inductive FactoryResult where
  /-- `(conn, nil)`: success. -/
  | ok (c : Conn)
  /-- `(nil, err)`: failure, nil connection. -/
  | fail
  /-- `(conn, err)`: failure that still returns a non-nil connection. -/
  | failConn (c : Conn)
deriving DecidableEq, Repr

/-- The errors returned by the pool. -/
inductive Err where
  /-- `ErrNil`: "pool is nil". -/
  | errNil
  /-- `ErrClosed`: "pool has been closed". -/
  | errClosed
  /-- `errors.New("More than MaxCap")` in `Get`. -/
  | moreThanMaxCap
  /-- an error propagated verbatim from the factory. -/
  | factoryErr
  /-- `errors.New("connection is nil. rejecting")` in `Return`. -/
  | nilRejecting
  /-- `errors.New("invalid capacity setting")` in `New`. -/
  | invalidCapacity
  /-- `fmt.Errorf("factory is not able to fill the pool: %s", err)` in `New`. -/
  | fillFailure
  /-- `ctx.Err()` in `BlockingGet`. -/
  | ctxErr
deriving DecidableEq, Repr

/-- Outcome of an operation: normal result, returned error, runtime
panic (nil-pointer dereference), or blocking forever on a channel. -/
inductive Outcome (α : Type) where
  | ok (a : α)
  | err (e : Err)
  | panicked
  | blocked
deriving DecidableEq, Repr

/-- Model of `Config`: only the capacity fields; `Network`, `Address`,
`WaitTimeout` and `IdleTimeout` are never consulted by the pool logic. -/
structure Config where
  InitCap : Int
  MaxCap : Int
deriving DecidableEq, Repr

/-- Model of `Pool`: `conns` is the buffered connection channel (`none` = nil
channel), `remainingSpace` the occupancy of the token channel. -/
structure Pool where
  conns : Option (List Conn)
  config : Config
  idleConns : Int
  createNum : Int
  remainingSpace : Nat
deriving DecidableEq, Repr

/-- Model of `GConn`: the wrapped connection.  `conn` is the embedded `net.Conn`
(`none` when nil); the pool back-reference is implicit. -/
structure GConn where
  conn : Option Conn
  unusable : Bool
deriving DecidableEq, Repr

/-- Model of `wrapConn`: builds the wrapper (its log dereferences `conn`, which
is non-nil at every call site reached with a connection in
hand). -/
def wrapConn (c : Conn) : GConn := ⟨some c, false⟩

/-- Result of an operation returning an `α`: outcome, connections whose
underlying `Close()` was invoked during the call, final pool state. -/
abbrev OpRes (α : Type) := Outcome α × List Conn × Pool

/-- Model of `Return`: reject nil (the rejection log evaluates
`conn.RemoteAddr()` on the nil connection first, which panics before
the rejection error can be returned); on a closed pool close the
connection; otherwise try a non-blocking send on `conns` and on the
full-buffer default close the connection. -/
def returnConn (conn : Option Conn) (p : Pool) : OpRes Unit :=
  match conn with
  | none => (.panicked, [], p)
  | some c =>
    match p.conns with
    | none => (.ok (), [c], p)
    | some q =>
      if (q.length : Int) < p.config.MaxCap then
        (.ok (), [], { p with conns := some (q ++ [c]), idleConns := p.idleConns + 1 })
      else
        (.ok (), [c], p)

/-- Model of `Get`: nil-pool check; non-blocking receive from `conns` (pop);
on the empty-buffer default, increment `createNum`, bound check,
factory call, then the log (which dereferences the factory's
connection and panics when it is nil), then `removeRemainingSpace`,
then the error check (which restores the token on failure). -/
def get (fr : FactoryResult) (p : Pool) : OpRes GConn :=
  match p.conns with
  | none => (.err .errNil, [], p)
  | some q =>
    match q with
    | c :: rest =>
      (.ok (wrapConn c), [], { p with conns := some rest, idleConns := p.idleConns - 1 })
    | [] =>
      let p1 := { p with createNum := p.createNum + 1 }
      if p1.config.MaxCap < p1.createNum then
        (.err .moreThanMaxCap, [], p1)
      else
        match fr with
        | .fail => (.panicked, [], p1)
        | .ok c =>
          if p1.remainingSpace = 0 then (.blocked, [], p1)
          else (.ok (wrapConn c), [], { p1 with remainingSpace := p1.remainingSpace - 1 })
        | .failConn _ =>
          if p1.remainingSpace = 0 then (.blocked, [], p1)
          else (.err .factoryErr, [], p1)

/-- The branch the `select` in `BlockingGet` commits to. -/
inductive BBranch where
  /-- `case conn := <-conns`. -/
  | fromQueue
  /-- `case _ = <-p.remainingSpace`. -/
  | fromSpace
  /-- `case <-ctx.Done()`. -/
  | ctxDone
deriving DecidableEq, Repr

/-- Model of `BlockingGet`: nil-pool check, then a three-way `select`; the
chosen branch is a parameter.  In the token branch the error check
precedes the log, so a failing factory returns its error after
restoring the token. -/
def blockingGet (br : BBranch) (fr : FactoryResult) (p : Pool) : OpRes GConn :=
  match p.conns with
  | none => (.err .errNil, [], p)
  | some q =>
    match br with
    | .fromQueue =>
      match q with
      | [] => (.blocked, [], p)
      | c :: rest =>
        (.ok (wrapConn c), [], { p with conns := some rest, idleConns := p.idleConns - 1 })
    | .fromSpace =>
      if p.remainingSpace = 0 then (.blocked, [], p)
      else
        let p1 := { p with remainingSpace := p.remainingSpace - 1,
                           createNum := p.createNum + 1 }
        match fr with
        | .ok c => (.ok (wrapConn c), [], p1)
        | .fail => (.err .factoryErr, [], { p1 with remainingSpace := p1.remainingSpace + 1 })
        | .failConn _ => (.err .factoryErr, [], { p1 with remainingSpace := p1.remainingSpace + 1 })
    | .ctxDone => (.err .ctxErr, [], p)

/-- The drain loop of `Close`: `for conn := range conns { conn.Close();
p.addRemainingSpace() }`.  Returns the closed connections, the final
token count, and whether `addRemainingSpace` blocked (token channel
full). -/
def drainLoop (maxCap : Int) : List Conn → Nat → List Conn × Nat × Bool
  | [], t => ([], t, false)
  | c :: rest, t =>
    if (t : Int) < maxCap then
      let r := drainLoop maxCap rest (t + 1)
      (c :: r.1, r.2.1, r.2.2)
    else
      ([c], t, true)

/-- Model of `Close`: detach `conns` (and the factory) under the lock, then, if
the detached channel was non-nil, drain it, closing each connection and
releasing one token per connection. -/
def close (p : Pool) : OpRes Unit :=
  match p.conns with
  | none => (.ok (), [], p)
  | some q =>
    let r := drainLoop p.config.MaxCap q p.remainingSpace
    ((if r.2.2 then Outcome.blocked else .ok ()), r.1,
      { p with conns := none, remainingSpace := r.2.1 })

/-- Model of `Len`: `len(conns)`; the length of a nil channel is 0. -/
def Pool.Len (p : Pool) : Int :=
  match p.conns with
  | none => 0
  | some q => (q.length : Int)

/-- Model of `Idle`: returns `idleConns` under the lock. -/
def Pool.Idle (p : Pool) : Int := p.idleConns

/-- Model of `GConn.MarkUnusable`: its log dereferences `g.Conn` (panics when
nil), then sets the flag. -/
def markUnusable (g : GConn) : Outcome GConn :=
  match g.conn with
  | none => .panicked
  | some _ => .ok { g with unusable := true }

/-- Model of `GConn.Close`: its log dereferences `g.Conn` (panics when nil);
if unusable, `addRemainingSpace` (blocks when the token channel is
full) and close the underlying connection; otherwise delegate to
`Pool.Return`. -/
def gconnClose (g : GConn) (p : Pool) : OpRes Unit :=
  match g.conn with
  | none => (.panicked, [], p)
  | some c =>
    if g.unusable then
      if (p.remainingSpace : Int) < p.config.MaxCap then
        (.ok (), [c], { p with remainingSpace := p.remainingSpace + 1 })
      else
        (.blocked, [], p)
    else
      returnConn (some c) p

/-- The pre-fill loop of `New`: `for i := 0; i < InitCap; i++`.
Each iteration calls the factory (call number `i`), consumes a token
(`removeRemainingSpace`, before the error check), on failure tears the
pool down and returns the wrapped error, on success assigns
`createNum = InitCap` and sends the connection on `conns`. -/
def newLoop (fr : Nat → FactoryResult) (cfg : Config) :
    Nat → Nat → Pool → Outcome Pool
  | 0, _, p => .ok p
  | n + 1, i, p =>
    if p.remainingSpace = 0 then .blocked
    else
      let p1 := { p with remainingSpace := p.remainingSpace - 1 }
      match fr i with
      | .fail => .err .fillFailure
      | .failConn _ => .err .fillFailure
      | .ok c =>
        let p2 := { p1 with createNum := cfg.InitCap }
        match p2.conns with
        | none => .blocked
        | some q =>
          if (q.length : Int) < cfg.MaxCap then
            newLoop fr cfg n (i + 1) { p2 with conns := some (q ++ [c]) }
          else .blocked

/-- Model of `New`: validate the capacities, build the pool with `idleConns =
InitCap` and the token channel filled to `MaxCap`, then run the
pre-fill loop. -/
def new (fr : Nat → FactoryResult) (cfg : Config) : Outcome Pool :=
  if cfg.InitCap < 0 ∨ cfg.MaxCap < 0 ∨ cfg.MaxCap < cfg.InitCap then
    .err .invalidCapacity
  else
    newLoop fr cfg cfg.InitCap.toNat 0
      { conns := some [], config := cfg, idleConns := cfg.InitCap,
        createNum := 0, remainingSpace := cfg.MaxCap.toNat }

/-! ### The quiescent-state transition system

`Sys` pairs the pool with the number of currently borrowed connections
(a ghost count: the pool itself does not track it).  A step is one
complete operation by a well-behaved caller: a caller only returns or
wrap-closes a connection it has actually borrowed. -/

/-- Pool state plus the ghost count of borrowed connections. -/
structure Sys where
  pool : Pool
  borrowed : Nat
deriving DecidableEq, Repr

/-- Borrowed count after an acquisition: one more on success. -/
def acqBorrow : Outcome GConn → Nat → Nat
  | .ok _, b => b + 1
  | _, b => b

/-- Borrowed count after a disposal (`Return` or wrapped close): one
fewer when the call ran to completion. -/
def relBorrow : Outcome Unit → Nat → Nat
  | .ok _, b => b - 1
  | _, b => b

/-- State after an acquisition attempt. -/
def afterAcq (r : OpRes GConn) (b : Nat) : Sys := ⟨r.2.2, acqBorrow r.1 b⟩

/-- State after a disposal attempt. -/
def afterRel (r : OpRes Unit) (b : Nat) : Sys := ⟨r.2.2, relBorrow r.1 b⟩

/-- One pool operation, performed at a quiescent point. -/
inductive Step : Sys → Sys → Prop where
  | get (fr : FactoryResult) (s : Sys) :
      Step s (afterAcq (get fr s.pool) s.borrowed)
  | bget (br : BBranch) (fr : FactoryResult) (s : Sys) :
      Step s (afterAcq (blockingGet br fr s.pool) s.borrowed)
  | ret (c : Conn) (s : Sys) (h : 1 ≤ s.borrowed) :
      Step s (afterRel (returnConn (some c) s.pool) s.borrowed)
  | close (s : Sys) :
      Step s ⟨(close s.pool).2.2, s.borrowed⟩
  | gclose (c : Conn) (u : Bool) (s : Sys) (h : 1 ≤ s.borrowed) :
      Step s (afterRel (gconnClose ⟨some c, u⟩ s.pool) s.borrowed)

/-- States reachable from a successful `New` by complete operations. -/
inductive Reachable : Sys → Prop where
  | init (fr : Nat → FactoryResult) (cfg : Config) (p : Pool)
      (h : new fr cfg = .ok p) : Reachable ⟨p, 0⟩
  | step (s s' : Sys) (h : Reachable s) (hs : Step s s') : Reachable s'

/-- The inductive invariant: while the pool is open, `idleConns`
mirrors the queue length and (idle) + (borrowed) + (tokens) = MaxCap;
once closed, the frozen `idleConns` stays within `[0, MaxCap]`. -/
def Inv (s : Sys) : Prop :=
  0 ≤ s.pool.config.MaxCap ∧
  (∀ q, s.pool.conns = some q →
    s.pool.idleConns = (q.length : Int) ∧
    (q.length : Int) + (s.borrowed : Int) + (s.pool.remainingSpace : Int) =
      s.pool.config.MaxCap) ∧
  (s.pool.conns = none →
    0 ≤ s.pool.idleConns ∧ s.pool.idleConns ≤ s.pool.config.MaxCap)


/-- A factory that always succeeds, producing connection id 100. -/
def frOkAll : Nat → FactoryResult := fun _ => .ok 100

/-- Introduction form of `Inv` for an open literal state. -/
theorem Inv.mk_some {q : List Conn} {cfg : Config} {idle cn : Int} {rs b : Nat}
    (hM : 0 ≤ cfg.MaxCap) (h1 : idle = (q.length : Int))
    (h2 : (q.length : Int) + (b : Int) + (rs : Int) = cfg.MaxCap) :
    Inv ⟨⟨some q, cfg, idle, cn, rs⟩, b⟩ := by
  refine ⟨hM, ?_, ?_⟩
  · rintro q' hq'
    obtain rfl : q = q' := by simpa using hq'
    exact ⟨h1, h2⟩
  · rintro ⟨⟩

/-- Introduction form of `Inv` for a closed literal state. -/
theorem Inv.mk_none {cfg : Config} {idle cn : Int} {rs b : Nat}
    (hM : 0 ≤ cfg.MaxCap) (h1 : 0 ≤ idle) (h2 : idle ≤ cfg.MaxCap) :
    Inv ⟨⟨none, cfg, idle, cn, rs⟩, b⟩ := by
  refine ⟨hM, ?_, fun _ => ⟨h1, h2⟩⟩
  rintro q' ⟨⟩

/-- Elimination form of `Inv` for an open literal state. -/
theorem Inv.of_some {q : List Conn} {cfg : Config} {idle cn : Int} {rs b : Nat}
    (h : Inv ⟨⟨some q, cfg, idle, cn, rs⟩, b⟩) :
    0 ≤ cfg.MaxCap ∧ idle = (q.length : Int) ∧
      (q.length : Int) + (b : Int) + (rs : Int) = cfg.MaxCap := by
  obtain ⟨hM, hopen, -⟩ := h
  obtain ⟨h1, h2⟩ := hopen q rfl
  exact ⟨hM, h1, h2⟩

/-- Elimination form of `Inv` for a closed literal state. -/
theorem Inv.of_none {cfg : Config} {idle cn : Int} {rs b : Nat}
    (h : Inv ⟨⟨none, cfg, idle, cn, rs⟩, b⟩) :
    0 ≤ cfg.MaxCap ∧ 0 ≤ idle ∧ idle ≤ cfg.MaxCap := by
  obtain ⟨hM, -, hclosed⟩ := h
  obtain ⟨h1, h2⟩ := hclosed rfl
  exact ⟨hM, h1, h2⟩

/-- Operation `Get` preserves the invariant. -/
theorem inv_get (fr : FactoryResult) (p : Pool) (b : Nat) (h : Inv ⟨p, b⟩) :
    Inv (afterAcq (get fr p) b) := by
  obtain ⟨cs, cfg, idle, cn, rs⟩ := p
  rcases cs with _ | (_ | ⟨c, rest⟩)
  · exact h
  · obtain ⟨hM, h1, h2⟩ := h.of_some
    simp only [List.length_nil, Nat.cast_zero] at h1 h2
    simp only [get, afterAcq, acqBorrow]
    split
    · exact Inv.mk_some hM h1 (by simpa using h2)
    · split
      · exact Inv.mk_some hM h1 (by simpa using h2)
      · split
        · exact Inv.mk_some hM h1 (by simpa using h2)
        · exact Inv.mk_some hM h1 (by simp; omega)
      · split
        · exact Inv.mk_some hM h1 (by simpa using h2)
        · exact Inv.mk_some hM h1 (by simpa using h2)
  · obtain ⟨hM, h1, h2⟩ := h.of_some
    simp only [List.length_cons] at h1 h2
    simp only [get, afterAcq, acqBorrow]
    exact Inv.mk_some hM (by push_cast at h1 ⊢; omega) (by push_cast at h2 ⊢; omega)


/-- Operation `BlockingGet` preserves the invariant. -/
theorem inv_bget (br : BBranch) (fr : FactoryResult) (p : Pool) (b : Nat)
    (h : Inv ⟨p, b⟩) : Inv (afterAcq (blockingGet br fr p) b) := by
  obtain ⟨cs, cfg, idle, cn, rs⟩ := p
  rcases cs with _ | q
  · exact h
  · obtain ⟨hM, h1, h2⟩ := h.of_some
    cases br with
    | fromQueue =>
      rcases q with _ | ⟨c, rest⟩
      · exact h
      · simp only [blockingGet, afterAcq, acqBorrow]
        simp only [List.length_cons] at h1 h2
        exact Inv.mk_some hM (by push_cast at h1 ⊢; omega) (by push_cast at h2 ⊢; omega)
    | fromSpace =>
      simp only [blockingGet, afterAcq, acqBorrow]
      split
      · exact h
      next hrs =>
        split
        · exact Inv.mk_some hM h1 (by simp; omega)
        · exact Inv.mk_some hM h1 (by simp; omega)
        · exact Inv.mk_some hM h1 (by simp; omega)
    | ctxDone => exact h

/-- Operation `Return` of a borrowed connection preserves the invariant. -/
theorem inv_ret (c : Conn) (p : Pool) (b : Nat) (hb : 1 ≤ b) (h : Inv ⟨p, b⟩) :
    Inv (afterRel (returnConn (some c) p) b) := by
  obtain ⟨cs, cfg, idle, cn, rs⟩ := p
  rcases cs with _ | q
  · obtain ⟨hM, h1, h2⟩ := h.of_none
    exact Inv.mk_none hM h1 h2
  · obtain ⟨hM, h1, h2⟩ := h.of_some
    simp only [returnConn, afterRel, relBorrow]
    split
    next hlt =>
      refine Inv.mk_some hM ?_ ?_ <;>
        · simp only [List.length_append, List.length_cons, List.length_nil]
          omega
    next hge => exact absurd h2 (by omega)

/-- Operation `Close` preserves the invariant. -/
theorem inv_close (p : Pool) (b : Nat) (h : Inv ⟨p, b⟩) :
    Inv (⟨(close p).2.2, b⟩ : Sys) := by
  obtain ⟨cs, cfg, idle, cn, rs⟩ := p
  rcases cs with _ | q
  · exact h
  · obtain ⟨hM, h1, h2⟩ := h.of_some
    have hcl : (close ⟨some q, cfg, idle, cn, rs⟩).2.2 =
        ⟨none, cfg, idle, cn, (drainLoop cfg.MaxCap q rs).2.1⟩ := by
      simp [close]
    rw [hcl]
    exact Inv.mk_none hM (by omega) (by omega)

/-- Operation `GConn.Close` of a borrowed connection preserves the invariant. -/
theorem inv_gclose (c : Conn) (u : Bool) (p : Pool) (b : Nat) (hb : 1 ≤ b)
    (h : Inv ⟨p, b⟩) : Inv (afterRel (gconnClose ⟨some c, u⟩ p) b) := by
  cases u with
  | false => exact inv_ret c p b hb h
  | true =>
    obtain ⟨cs, cfg, idle, cn, rs⟩ := p
    by_cases hlt : (rs : Int) < cfg.MaxCap
    · have hg : gconnClose ⟨some c, true⟩ ⟨cs, cfg, idle, cn, rs⟩ =
          (.ok (), [c], ⟨cs, cfg, idle, cn, rs + 1⟩) := by
        simp [gconnClose, hlt]
      rw [hg]
      simp only [afterRel, relBorrow]
      rcases cs with _ | q
      · obtain ⟨hM, h1, h2⟩ := h.of_none
        exact Inv.mk_none hM h1 h2
      · obtain ⟨hM, h1, h2⟩ := h.of_some
        exact Inv.mk_some hM h1 (by push_cast at h2 ⊢; omega)
    · have hg : gconnClose ⟨some c, true⟩ ⟨cs, cfg, idle, cn, rs⟩ =
          (.blocked, [], ⟨cs, cfg, idle, cn, rs⟩) := by
        simp [gconnClose, hlt]
      rw [hg]
      exact h

/-- Every operation preserves the invariant. -/
theorem inv_step {s s' : Sys} (h : Inv s) (hs : Step s s') : Inv s' := by
  obtain ⟨p, b⟩ := s
  cases hs with
  | get fr _ => exact inv_get fr p b h
  | bget br fr _ => exact inv_bget br fr p b h
  | ret c _ hb => exact inv_ret c p b hb h
  | close _ => exact inv_close p b h
  | gclose c u _ hb => exact inv_gclose c u p b hb h


/-- Field accounting of a successful pre-fill loop: it consumes one
token and appends one connection per iteration and touches neither
`config` nor `idleConns`. -/
theorem newLoop_ok (fr : Nat → FactoryResult) (cfg : Config) :
    ∀ (n i : Nat) (p p' : Pool), newLoop fr cfg n i p = .ok p' →
      p'.config = p.config ∧ p'.idleConns = p.idleConns ∧
      n ≤ p.remainingSpace ∧ p'.remainingSpace = p.remainingSpace - n ∧
      ∀ q, p.conns = some q → ∃ q', p'.conns = some q' ∧
        q'.length = q.length + n := by
  intro n
  induction n with
  | zero =>
    intro i p p' h
    obtain rfl : p = p' := by simpa [newLoop] using h
    exact ⟨rfl, rfl, by omega, by omega, fun q hq => ⟨q, hq, by omega⟩⟩
  | succ n ih =>
    intro i p p' h
    obtain ⟨cs, cfgp, idle, cn, rs⟩ := p
    simp only [newLoop] at h
    by_cases hrs : rs = 0
    · rw [if_pos hrs] at h; simp at h
    · rw [if_neg hrs] at h
      cases hfi : fr i with
      | fail => rw [hfi] at h; simp at h
      | failConn c => rw [hfi] at h; simp at h
      | ok c =>
        rw [hfi] at h
        rcases cs with _ | q
        · simp at h
        · simp only at h
          by_cases hq : ((q.length : Int) < cfg.MaxCap)
          · rw [if_pos hq] at h
            obtain ⟨e1, e2, e3, e4, e5⟩ := ih (i + 1) _ p' h
            have e3' : n ≤ rs - 1 := e3
            have e4' : p'.remainingSpace = rs - 1 - n := e4
            refine ⟨e1, e2, ?_, ?_, ?_⟩
            · show n + 1 ≤ rs
              omega
            · show p'.remainingSpace = rs - (n + 1)
              omega
            · intro q0 hq0
              injection hq0 with hqq
              subst hqq
              obtain ⟨q', hq', hlen⟩ := e5 (q ++ [c]) rfl
              refine ⟨q', hq', ?_⟩
              simp only [List.length_append, List.length_cons, List.length_nil] at hlen
              omega
          · rw [if_neg hq] at h; simp at h

/-- A successful `New` establishes the invariant with no borrowed
connections. -/
theorem inv_init {fr : Nat → FactoryResult} {cfg : Config} {p : Pool}
    (h : new fr cfg = .ok p) : Inv ⟨p, 0⟩ := by
  unfold new at h
  split at h
  · simp at h
  next hval =>
    push_neg at hval
    obtain ⟨hv1, hv2, hv3⟩ := hval
    obtain ⟨e1, e2, e3, e4, e5⟩ := newLoop_ok fr cfg cfg.InitCap.toNat 0 _ p h
    simp only at e1 e2 e3 e4
    obtain ⟨q', hq', hlen⟩ := e5 [] rfl
    simp only [List.length_nil] at hlen
    refine ⟨by rw [e1]; omega, ?_, ?_⟩
    · intro q hq
      rw [hq'] at hq
      obtain rfl : q' = q := by simpa using hq
      refine ⟨by rw [e2]; omega, ?_⟩
      rw [e4, e1]
      push_cast
      omega
    · intro hq
      rw [hq'] at hq
      simp at hq

/-- Every reachable quiescent state satisfies the invariant. -/
theorem inv_reachable {s : Sys} (h : Reachable s) : Inv s := by
  induction h with
  | init fr cfg p h => exact inv_init h
  | step s s' h hs ih => exact inv_step ih hs

/-- Once `conns` is nil, no operation restores it. -/
theorem step_closed {s s' : Sys} (hs : Step s s') (h : s.pool.conns = none) :
    s'.pool.conns = none := by
  obtain ⟨p, b⟩ := s
  obtain ⟨cs, cfg, idle, cn, rs⟩ := p
  simp only at h
  subst h
  cases hs with
  | get fr _ => rfl
  | bget br fr _ => cases br <;> rfl
  | ret c _ hb => rfl
  | close _ => rfl
  | gclose c u _ hb =>
    cases u with
    | false => rfl
    | true =>
      by_cases hlt : (rs : Int) < cfg.MaxCap <;>
        simp [gconnClose, afterRel, hlt]

/-- No operation ever decreases `createNum`. -/
theorem step_createNum {s s' : Sys} (hs : Step s s') :
    s.pool.createNum ≤ s'.pool.createNum := by
  obtain ⟨p, b⟩ := s
  obtain ⟨cs, cfg, idle, cn, rs⟩ := p
  cases hs with
  | get fr _ =>
    rcases cs with _ | (_ | ⟨c, rest⟩) <;>
      simp only [get, afterAcq, acqBorrow] <;>
      (repeat' split) <;> simp
  | bget br fr _ =>
    rcases cs with _ | q
    · cases br <;> simp [blockingGet, afterAcq]
    · cases br with
      | fromQueue =>
        rcases q with _ | ⟨c, rest⟩ <;> simp [blockingGet, afterAcq]
      | fromSpace =>
        simp only [blockingGet, afterAcq, acqBorrow]
        (repeat' split) <;> simp
      | ctxDone => simp [blockingGet, afterAcq]
  | ret c _ hb =>
    rcases cs with _ | q <;>
      simp only [returnConn, afterRel, relBorrow] <;>
      (repeat' split) <;> simp
  | close _ =>
    rcases cs with _ | q <;> simp [close]
  | gclose c u _ hb =>
    cases u with
    | false =>
      rcases cs with _ | q <;>
        simp only [gconnClose, returnConn, afterRel, relBorrow] <;>
        (repeat' split) <;> simp
    | true =>
      by_cases hlt : (rs : Int) < cfg.MaxCap <;>
        simp [gconnClose, afterRel, hlt]

/-- The drain loop of `Close` never blocks when the released tokens fit
under the channel capacity: it closes exactly the queued connections
and releases one token each. -/
theorem drainLoop_no_block (M : Int) :
    ∀ (l : List Conn) (t : Nat), (t : Int) + (l.length : Int) ≤ M →
      drainLoop M l t = (l, t + l.length, false) := by
  intro l
  induction l with
  | nil => intro t h; simp [drainLoop]
  | cons c rest ih =>
    intro t h
    simp only [List.length_cons] at h
    simp only [drainLoop]
    rw [if_pos (by push_cast at h ⊢; omega)]
    rw [ih (t + 1) (by push_cast at h ⊢; omega)]
    simp only [List.length_cons, Prod.mk.injEq, true_and, and_true]
    omega


/-- Claim C3: Return on an open pool whose idle queue is already full
closes the passed connection and changes nothing: no capacity token is
released and the idle count is unchanged (the pool state is returned
as it was). -/
theorem C3_return_full (p : Pool) (q : List Conn) (c : Conn)
    (hq : p.conns = some q) (hfull : ¬ ((q.length : Int) < p.config.MaxCap)) :
    returnConn (some c) p = (.ok (), [c], p) := by
  obtain ⟨cs, cfg, idle, cn, rs⟩ := p
  simp only at hq
  subst hq
  simp [returnConn, hfull]

/-- Witness for C3 at a concrete full pool. -/
theorem C3_return_full_witness :
    returnConn (some 3) ⟨some [7], ⟨0, 1⟩, 1, 1, 0⟩ =
      (.ok (), [3], ⟨some [7], ⟨0, 1⟩, 1, 1, 0⟩) :=
  C3_return_full ⟨some [7], ⟨0, 1⟩, 1, 1, 0⟩ [7] 3 rfl (by decide)

/-- Claim C5: Get on an empty idle queue first increments `createNum`;
if the incremented counter exceeds MaxCap it fails with the
capacity-exceeded error and the counter stays incremented; otherwise it
consumes one capacity token and invokes the factory, returning the new
connection on success.  Concretely, on the pool produced by `New` with
InitCap = 0 and MaxCap = 2 and a succeeding factory, two consecutive
Gets succeed and a third fails with the capacity-exceeded error. -/
theorem C5_get_capacity (p : Pool) :
    (∀ fr, p.conns = some [] → p.config.MaxCap < p.createNum + 1 →
      get fr p = (.err .moreThanMaxCap, [], { p with createNum := p.createNum + 1 })) ∧
    (∀ c, p.conns = some [] → p.createNum + 1 ≤ p.config.MaxCap →
      1 ≤ p.remainingSpace →
      get (.ok c) p = (.ok (wrapConn c), [],
        { p with createNum := p.createNum + 1,
                 remainingSpace := p.remainingSpace - 1 })) ∧
    (new frOkAll ⟨0, 2⟩ = .ok ⟨some [], ⟨0, 2⟩, 0, 0, 2⟩ ∧
      (get (.ok 1) ⟨some [], ⟨0, 2⟩, 0, 0, 2⟩).1 = .ok (wrapConn 1) ∧
      (get (.ok 2) (get (.ok 1) ⟨some [], ⟨0, 2⟩, 0, 0, 2⟩).2.2).1 =
        .ok (wrapConn 2) ∧
      (get (.ok 3)
          (get (.ok 2) (get (.ok 1) ⟨some [], ⟨0, 2⟩, 0, 0, 2⟩).2.2).2.2).1 =
        .err .moreThanMaxCap) := by
  obtain ⟨cs, cfg, idle, cn, rs⟩ := p
  refine ⟨?_, ?_, by decide⟩
  · intro fr hq hcap
    simp only at hq hcap
    subst hq
    simp only [get]
    split
    next => rfl
    next hcond => omega
  · intro c hq hcap hrs
    simp only at hq hcap hrs
    subst hq
    simp only [get]
    split
    next hcond => omega
    next =>
      split
      next hcond => omega
      next => simp

/-- Witness for C5 at concrete pools. -/
theorem C5_get_capacity_witness :
    get (.ok 9) ⟨some [], ⟨0, 2⟩, 0, 2, 0⟩ =
      (.err .moreThanMaxCap, [], ⟨some [], ⟨0, 2⟩, 0, 3, 0⟩) ∧
    get (.ok 9) ⟨some [], ⟨0, 2⟩, 0, 0, 2⟩ =
      (.ok (wrapConn 9), [], ⟨some [], ⟨0, 2⟩, 0, 1, 1⟩) :=
  ⟨(C5_get_capacity ⟨some [], ⟨0, 2⟩, 0, 2, 0⟩).1 (.ok 9) rfl (by decide),
   (C5_get_capacity ⟨some [], ⟨0, 2⟩, 0, 0, 2⟩).2.1 9 rfl (by decide) (by decide)⟩

/-- Claim C6: once the pool is closed (`conns` detached to nil), every
subsequent acquisition, after any further sequence of operations, fails
with the nil-pool error and never hands out a connection. -/
theorem C6_closed_acquire (s s' : Sys) (fr : FactoryResult) (br : BBranch)
    (h : s.pool.conns = none) (hs : Relation.ReflTransGen Step s s') :
    get fr s'.pool = (.err .errNil, [], s'.pool) ∧
    blockingGet br fr s'.pool = (.err .errNil, [], s'.pool) := by
  have hcl : s'.pool.conns = none := by
    induction hs with
    | refl => exact h
    | tail _ hstep ih => exact step_closed hstep ih
  constructor
  · simp [get, hcl]
  · simp [blockingGet, hcl]

/-- Witness for C6 at a concrete closed pool. -/
theorem C6_closed_acquire_witness :
    get (.ok 4) (⟨⟨none, ⟨0, 1⟩, 0, 0, 1⟩, 0⟩ : Sys).pool =
      (.err .errNil, [], (⟨⟨none, ⟨0, 1⟩, 0, 0, 1⟩, 0⟩ : Sys).pool) ∧
    blockingGet .fromSpace (.ok 4) (⟨⟨none, ⟨0, 1⟩, 0, 0, 1⟩, 0⟩ : Sys).pool =
      (.err .errNil, [], (⟨⟨none, ⟨0, 1⟩, 0, 0, 1⟩, 0⟩ : Sys).pool) :=
  C6_closed_acquire ⟨⟨none, ⟨0, 1⟩, 0, 0, 1⟩, 0⟩ ⟨⟨none, ⟨0, 1⟩, 0, 0, 1⟩, 0⟩
    (.ok 4) .fromSpace rfl Relation.ReflTransGen.refl

/-- Claim C7 (code behaviour at the claimed input): Return called with
a nil connection panics — the rejection log evaluates
`conn.RemoteAddr()` on the nil connection before the rejection error
can be constructed — and mutates nothing. -/
theorem C7_return_nil_panics (p : Pool) :
    returnConn none p = (.panicked, [], p) := rfl

/-- Witness for C7 at a concrete pool. -/
theorem C7_return_nil_panics_witness :
    returnConn none ⟨some [], ⟨0, 1⟩, 0, 0, 1⟩ =
      (.panicked, [], ⟨some [], ⟨0, 1⟩, 0, 0, 1⟩) :=
  C7_return_nil_panics ⟨some [], ⟨0, 1⟩, 0, 0, 1⟩

/-- Claim C8: marking a borrowed wrapped connection unusable and then
closing it closes the underlying connection and releases exactly one
capacity token directly — the idle queue and idle count are untouched —
after which a blocking acquire can consume that token; an unmarked
wrapped connection's Close delegates to Pool.Return. -/
theorem C8_unusable_close (p : Pool) (q : List Conn) (c : Conn)
    (hq : p.conns = some q)
    (htok : (p.remainingSpace : Int) < p.config.MaxCap) :
    markUnusable (wrapConn c) = .ok ⟨some c, true⟩ ∧
    gconnClose ⟨some c, true⟩ p =
      (.ok (), [c], { p with remainingSpace := p.remainingSpace + 1 }) ∧
    (∀ c', (blockingGet .fromSpace (.ok c')
      { p with remainingSpace := p.remainingSpace + 1 }).1 = .ok (wrapConn c')) ∧
    gconnClose (wrapConn c) p = returnConn (some c) p := by
  obtain ⟨cs, cfg, idle, cn, rs⟩ := p
  simp only at hq
  subst hq
  refine ⟨rfl, ?_, ?_, rfl⟩
  · simp [gconnClose, htok]
  · intro c'
    simp [blockingGet]

/-- Witness for C8 at a concrete pool with one borrowed connection. -/
theorem C8_unusable_close_witness :
    markUnusable (wrapConn 5) = .ok ⟨some 5, true⟩ ∧
    gconnClose ⟨some 5, true⟩ ⟨some [], ⟨0, 1⟩, 0, 1, 0⟩ =
      (.ok (), [5], ⟨some [], ⟨0, 1⟩, 0, 1, 1⟩) ∧
    (∀ c', (blockingGet .fromSpace (.ok c')
      ⟨some [], ⟨0, 1⟩, 0, 1, 1⟩).1 = .ok (wrapConn c')) ∧
    gconnClose (wrapConn 5) ⟨some [], ⟨0, 1⟩, 0, 1, 0⟩ =
      returnConn (some 5) ⟨some [], ⟨0, 1⟩, 0, 1, 0⟩ :=
  C8_unusable_close ⟨some [], ⟨0, 1⟩, 0, 1, 0⟩ [] 5 rfl (by decide)

/-- Claim C9: the first Close closes exactly the idle-queue
connections, releasing one token per connection, and a second Close
sees the nil queue, returns immediately and changes nothing. -/
theorem C9_close_idempotent (p : Pool) (q : List Conn)
    (hq : p.conns = some q)
    (htok : (p.remainingSpace : Int) + (q.length : Int) ≤ p.config.MaxCap) :
    close p = (.ok (), q,
        { p with conns := none, remainingSpace := p.remainingSpace + q.length }) ∧
    close { p with conns := none, remainingSpace := p.remainingSpace + q.length } =
      (.ok (), [],
        { p with conns := none, remainingSpace := p.remainingSpace + q.length }) := by
  obtain ⟨cs, cfg, idle, cn, rs⟩ := p
  simp only at hq htok
  subst hq
  constructor
  · simp only [close]
    rw [drainLoop_no_block _ _ _ (by omega)]
    simp
  · rfl

/-- Witness for C9 at a concrete two-element pool. -/
theorem C9_close_idempotent_witness :
    close ⟨some [7, 8], ⟨2, 2⟩, 2, 2, 0⟩ =
      (.ok (), [7, 8], ⟨none, ⟨2, 2⟩, 2, 2, 2⟩) ∧
    close ⟨none, ⟨2, 2⟩, 2, 2, 2⟩ =
      (.ok (), [], ⟨none, ⟨2, 2⟩, 2, 2, 2⟩) := by
  have h := C9_close_idempotent ⟨some [7, 8], ⟨2, 2⟩, 2, 2, 0⟩ [7, 8] rfl (by decide)
  simpa using h

/-- Claim C10: no operation ever decreases `createNum`; once
`createNum` has reached MaxCap, a Get that finds the queue empty fails
with the capacity-exceeded error (and pushes the counter higher), while
BlockingGet, which performs no such bound check, still succeeds
whenever a capacity token is free. -/
theorem C10_createNum_monotone :
    (∀ s s' : Sys, Step s s' → s.pool.createNum ≤ s'.pool.createNum) ∧
    (∀ (p : Pool) (fr : FactoryResult), p.conns = some [] →
      p.config.MaxCap ≤ p.createNum →
      get fr p = (.err .moreThanMaxCap, [], { p with createNum := p.createNum + 1 })) ∧
    (∀ (p : Pool) (q : List Conn) (c : Conn), p.conns = some q →
      1 ≤ p.remainingSpace →
      (blockingGet .fromSpace (.ok c) p).1 = .ok (wrapConn c)) := by
  refine ⟨fun s s' hs => step_createNum hs, ?_, ?_⟩
  · intro p fr hq hcap
    obtain ⟨cs, cfg, idle, cn, rs⟩ := p
    simp only at hq hcap
    subst hq
    simp only [get]
    split
    next => rfl
    next hcond => omega
  · intro p q c hq hrs
    obtain ⟨cs, cfg, idle, cn, rs⟩ := p
    simp only at hq hrs
    subst hq
    have hrs0 : ¬ (rs = 0) := by omega
    simp [blockingGet, hrs0]

/-- Witness for C10 at concrete pools: a step that keeps the counter,
the exhausted Get, and a BlockingGet succeeding past the bound. -/
theorem C10_createNum_monotone_witness :
    (⟨⟨some [], ⟨0, 1⟩, 0, 1, 1⟩, 0⟩ : Sys).pool.createNum ≤
      (afterAcq (get (.ok 2) ⟨some [], ⟨0, 1⟩, 0, 1, 1⟩) 0).pool.createNum ∧
    get (.ok 2) ⟨some [], ⟨0, 1⟩, 0, 1, 1⟩ =
      (.err .moreThanMaxCap, [], ⟨some [], ⟨0, 1⟩, 0, 2, 1⟩) ∧
    (blockingGet .fromSpace (.ok 2) ⟨some [], ⟨0, 1⟩, 0, 1, 1⟩).1 =
      .ok (wrapConn 2) :=
  ⟨C10_createNum_monotone.1 ⟨⟨some [], ⟨0, 1⟩, 0, 1, 1⟩, 0⟩ _
      (Step.get (.ok 2) ⟨⟨some [], ⟨0, 1⟩, 0, 1, 1⟩, 0⟩),
   C10_createNum_monotone.2.1 ⟨some [], ⟨0, 1⟩, 0, 1, 1⟩ (.ok 2) rfl (by decide),
   C10_createNum_monotone.2.2 ⟨some [], ⟨0, 1⟩, 0, 1, 1⟩ [] 2 rfl (by decide)⟩


/-- Claim C1 (amended): at every reachable quiescent point at which the
pool is still open, the idle counter agrees with the idle-queue length
and (idle) + (borrowed) + (free capacity tokens) = MaxCap. -/
theorem C1_open_capacity_sum (s : Sys) (q : List Conn) (h : Reachable s)
    (hq : s.pool.conns = some q) :
    s.pool.Idle = s.pool.Len ∧
    s.pool.Len + (s.borrowed : Int) + (s.pool.remainingSpace : Int) =
      s.pool.config.MaxCap := by
  obtain ⟨-, hopen, -⟩ := inv_reachable h
  obtain ⟨h1, h2⟩ := hopen q hq
  constructor
  · simp [Pool.Idle, Pool.Len, hq, h1]
  · simp only [Pool.Len, hq]
    exact h2

/-- Witness for the amended C1 at a freshly created pool. -/
theorem C1_open_capacity_sum_witness :
    (⟨⟨some [], ⟨0, 2⟩, 0, 0, 2⟩, 0⟩ : Sys).pool.Idle =
      (⟨⟨some [], ⟨0, 2⟩, 0, 0, 2⟩, 0⟩ : Sys).pool.Len ∧
    (⟨⟨some [], ⟨0, 2⟩, 0, 0, 2⟩, 0⟩ : Sys).pool.Len +
      ((⟨⟨some [], ⟨0, 2⟩, 0, 0, 2⟩, 0⟩ : Sys).borrowed : Int) +
      ((⟨⟨some [], ⟨0, 2⟩, 0, 0, 2⟩, 0⟩ : Sys).pool.remainingSpace : Int) =
      (⟨⟨some [], ⟨0, 2⟩, 0, 0, 2⟩, 0⟩ : Sys).pool.config.MaxCap :=
  C1_open_capacity_sum ⟨⟨some [], ⟨0, 2⟩, 0, 0, 2⟩, 0⟩ []
    (Reachable.init frOkAll ⟨0, 2⟩ _ (by decide)) rfl

/-- Claim C1 as stated is refuted at this reachable quiescent state:
create a pool with MaxCap = 1, borrow its one connection, Close the
pool, then Return the borrowed connection — the closed-pool path of
Return destroys it without releasing a token, leaving idle + borrowed +
tokens = 0 while MaxCap = 1. -/
theorem C1_counterexample :
    Reachable ⟨⟨none, ⟨0, 1⟩, 0, 1, 0⟩, 0⟩ ∧
    (⟨⟨none, ⟨0, 1⟩, 0, 1, 0⟩, 0⟩ : Sys).pool.Len +
      ((⟨⟨none, ⟨0, 1⟩, 0, 1, 0⟩, 0⟩ : Sys).borrowed : Int) +
      ((⟨⟨none, ⟨0, 1⟩, 0, 1, 0⟩, 0⟩ : Sys).pool.remainingSpace : Int) ≠
      (⟨⟨none, ⟨0, 1⟩, 0, 1, 0⟩, 0⟩ : Sys).pool.config.MaxCap := by
  constructor
  · have h0 : Reachable ⟨⟨some [], ⟨0, 1⟩, 0, 0, 1⟩, 0⟩ :=
      Reachable.init frOkAll ⟨0, 1⟩ _ (by decide)
    have h1 : Reachable ⟨⟨some [], ⟨0, 1⟩, 0, 1, 0⟩, 1⟩ :=
      Reachable.step _ _ h0 (Step.get (.ok 5) _)
    have h2 : Reachable ⟨⟨none, ⟨0, 1⟩, 0, 1, 0⟩, 1⟩ :=
      Reachable.step _ _ h1 (Step.close _)
    exact Reachable.step _ _ h2 (Step.ret 5 _ (by decide))
  · decide

/-- Claim C2 is refuted at this concrete open pool: BlockingGet with a
failing factory returns the factory error but does not leave the pool
state as it was before the call — `createNum` stays incremented. -/
theorem C2_counterexample :
    (blockingGet .fromSpace .fail ⟨some [], ⟨0, 2⟩, 0, 0, 2⟩).1 =
      .err .factoryErr ∧
    (blockingGet .fromSpace .fail ⟨some [], ⟨0, 2⟩, 0, 0, 2⟩).2.2 ≠
      ⟨some [], ⟨0, 2⟩, 0, 0, 2⟩ := by
  decide

/-- Claim C2 (amended): when the factory call fails, the free-token
count is unchanged once the call finishes (a consumed token is
released), but the creation-counter increment is not undone.  In
BlockingGet the error is returned; in Get the error is returned only
when the failing factory still produced a connection value — when it
returned nil (the usual Go convention) the logging call dereferences
nil and panics before the token is even consumed, again with the
counter left incremented. -/
theorem C2_factory_failure_state (p : Pool) :
    (∀ q fr, p.conns = some q → 1 ≤ p.remainingSpace →
      (fr = .fail ∨ ∃ c, fr = .failConn c) →
      blockingGet .fromSpace fr p =
        (.err .factoryErr, [], { p with createNum := p.createNum + 1 })) ∧
    (∀ c, p.conns = some [] → p.createNum + 1 ≤ p.config.MaxCap →
      1 ≤ p.remainingSpace →
      get (.failConn c) p =
        (.err .factoryErr, [], { p with createNum := p.createNum + 1 })) ∧
    (p.conns = some [] → p.createNum + 1 ≤ p.config.MaxCap →
      get .fail p = (.panicked, [], { p with createNum := p.createNum + 1 })) := by
  obtain ⟨cs, cfg, idle, cn, rs⟩ := p
  refine ⟨?_, ?_, ?_⟩
  · intro q fr hq hrs hfr
    simp only at hq hrs
    subst hq
    have hrs0 : ¬ (rs = 0) := by omega
    rcases hfr with rfl | ⟨c, rfl⟩ <;>
      · simp [blockingGet, hrs0]
        omega
  · intro c hq hcap hrs
    simp only at hq hcap hrs
    subst hq
    simp only [get]
    split
    next hcond => omega
    next =>
      split
      next hcond => omega
      next => rfl
  · intro hq hcap
    simp only at hq hcap
    subst hq
    simp only [get]
    split
    next hcond => omega
    next => rfl

/-- Witness for the amended C2 at concrete pools. -/
theorem C2_factory_failure_state_witness :
    blockingGet .fromSpace .fail ⟨some [], ⟨0, 2⟩, 0, 0, 2⟩ =
      (.err .factoryErr, [], ⟨some [], ⟨0, 2⟩, 0, 1, 2⟩) ∧
    get (.failConn 9) ⟨some [], ⟨0, 2⟩, 0, 0, 2⟩ =
      (.err .factoryErr, [], ⟨some [], ⟨0, 2⟩, 0, 1, 2⟩) ∧
    get .fail ⟨some [], ⟨0, 2⟩, 0, 0, 2⟩ =
      (.panicked, [], ⟨some [], ⟨0, 2⟩, 0, 1, 2⟩) := by
  have h := C2_factory_failure_state ⟨some [], ⟨0, 2⟩, 0, 0, 2⟩
  exact ⟨h.1 [] .fail rfl (by decide) (Or.inl rfl),
         h.2.1 9 rfl (by decide) (by decide),
         h.2.2 rfl (by decide)⟩

/-- Claim C4 (amended): at every reachable quiescent point,
0 ≤ Idle(), 0 ≤ Len() ≤ MaxCap and Idle() ≤ MaxCap, and while the pool
is open Idle() ≤ Len(); Close leaves the idle counter untouched while
detaching the queue, so after Close Idle() may exceed Len(). -/
theorem C4_idle_len_bounds (s : Sys) (h : Reachable s) :
    0 ≤ s.pool.Idle ∧ 0 ≤ s.pool.Len ∧
    s.pool.Len ≤ s.pool.config.MaxCap ∧
    s.pool.Idle ≤ s.pool.config.MaxCap ∧
    (∀ q, s.pool.conns = some q → s.pool.Idle ≤ s.pool.Len) := by
  obtain ⟨hM, hopen, hclosed⟩ := inv_reachable h
  rcases hc : s.pool.conns with _ | q
  · obtain ⟨h1, h2⟩ := hclosed hc
    have hlen : s.pool.Len = 0 := by simp [Pool.Len, hc]
    simp only [Pool.Idle, hlen]
    exact ⟨h1, le_refl 0, hM, h2, fun q hq => Option.noConfusion hq⟩
  · obtain ⟨h1, h2⟩ := hopen q hc
    have hlen : s.pool.Len = (q.length : Int) := by simp [Pool.Len, hc]
    simp only [Pool.Idle, hlen]
    refine ⟨by omega, by omega, by omega, by omega, fun q' hq' => by omega⟩

/-- Witness for the amended C4 at a freshly created pool. -/
theorem C4_idle_len_bounds_witness :
    0 ≤ (⟨⟨some [100], ⟨1, 2⟩, 1, 1, 1⟩, 0⟩ : Sys).pool.Idle ∧
    0 ≤ (⟨⟨some [100], ⟨1, 2⟩, 1, 1, 1⟩, 0⟩ : Sys).pool.Len ∧
    (⟨⟨some [100], ⟨1, 2⟩, 1, 1, 1⟩, 0⟩ : Sys).pool.Len ≤
      (⟨⟨some [100], ⟨1, 2⟩, 1, 1, 1⟩, 0⟩ : Sys).pool.config.MaxCap ∧
    (⟨⟨some [100], ⟨1, 2⟩, 1, 1, 1⟩, 0⟩ : Sys).pool.Idle ≤
      (⟨⟨some [100], ⟨1, 2⟩, 1, 1, 1⟩, 0⟩ : Sys).pool.config.MaxCap ∧
    (∀ q, (⟨⟨some [100], ⟨1, 2⟩, 1, 1, 1⟩, 0⟩ : Sys).pool.conns = some q →
      (⟨⟨some [100], ⟨1, 2⟩, 1, 1, 1⟩, 0⟩ : Sys).pool.Idle ≤
        (⟨⟨some [100], ⟨1, 2⟩, 1, 1, 1⟩, 0⟩ : Sys).pool.Len) :=
  C4_idle_len_bounds ⟨⟨some [100], ⟨1, 2⟩, 1, 1, 1⟩, 0⟩
    (Reachable.init frOkAll ⟨1, 2⟩ _ (by decide))

/-- Claim C4 as stated is refuted at this reachable quiescent state:
Close on a pool created with InitCap = MaxCap = 1 empties the queue but
leaves the idle counter at 1, so Idle() = 1 > 0 = Len(). -/
theorem C4_counterexample :
    Reachable ⟨⟨none, ⟨1, 1⟩, 1, 1, 1⟩, 0⟩ ∧
    ¬ ((⟨⟨none, ⟨1, 1⟩, 1, 1, 1⟩, 0⟩ : Sys).pool.Idle ≤
        (⟨⟨none, ⟨1, 1⟩, 1, 1, 1⟩, 0⟩ : Sys).pool.Len) := by
  constructor
  · have h0 : Reachable ⟨⟨some [100], ⟨1, 1⟩, 1, 1, 0⟩, 0⟩ :=
      Reachable.init frOkAll ⟨1, 1⟩ _ (by decide)
    exact Reachable.step _ _ h0 (Step.close _)
  · decide

end GPool
